import Mathlib

/-!
Shallow embedding of `tools/context_pack.py`, a single-pass CLI that bundles
a bounded list of source files plus optional git metadata into one textual
"context pack" on standard output.

Modelling decisions:
* Python `str` values are Lean `String`s (both are sequences of Unicode
  scalar values after UTF-8 decoding with replacement).
* `pathlib.Path` is modelled by `PPath`: an absoluteness flag plus the list
  of name components (pathlib drops empty and `"."` components at parse
  time).  `Path.resolve()` is modelled as "make absolute against the
  current working directory": the filesystems quantified over contain no
  symlinks and paths contain no `..` components.
* The filesystem is a partial map from resolved paths to text content
  (`some c` means a regular file whose decoded text is `c`; `none` covers
  both "missing" and "not a regular file").
* The three `git rev-parse` sub-queries are an environment of three
  `Option String` results (`none` = the `run_git` helper caught a failure);
  the subprocess machinery inside `run_git` itself is outside the embedding.
* Effects are made explicit in the run result: the stdout text, the list of
  stderr diagnostics, the trace of files actually read with
  `read_text_file`, and the trace of `git` invocations.
* `hashlib.sha256` is embedded as a full executable SHA-256 over the UTF-8
  encoded bytes; machine words are `Nat` reduced mod 2^32 where Python/C
  would overflow.
-/

/-- Python truthiness of an optional string: `None` and `""` are falsy. -/
def pyTruthy : Option String → Bool
  | none => false
  | some s => s != ""

/-- Python `str.rstrip("\n")`: remove all trailing newline characters. -/
def rstripNL (s : String) : String :=
  ⟨(s.data.reverse.dropWhile (· == '\n')).reverse⟩

/-- A `pathlib.Path`: absoluteness flag plus name components. -/
structure PPath where
  absolute : Bool
  components : List String
deriving DecidableEq, Repr

/-- Split a character list at `/` separators (cf. `str.split("/")`);
`acc` holds the reversed characters of the piece being scanned. -/
def splitSlash : List Char → List Char → List String
  | [], acc => [⟨acc.reverse⟩]
  | c :: rest, acc =>
      if c = '/' then ⟨acc.reverse⟩ :: splitSlash rest []
      else splitSlash rest (c :: acc)

/-- Embeds `Path(raw)`: absolute iff the string starts with `/`; components are the
slash-separated pieces, with empty and `"."` pieces dropped (as pathlib
does when parsing). -/
def parsePath (raw : String) : PPath :=
  { absolute := raw.data.head? == some '/'
    components := (splitSlash raw.data []).filter (fun c => c ≠ "" ∧ c ≠ ".") }

/-- Rendering `str(p)` for a `PPath`. -/
def PPath.render : PPath → String
  | ⟨true, cs⟩ => "/" ++ String.intercalate ("/") cs
  | ⟨false, []⟩ => "."
  | ⟨false, cs⟩ => String.intercalate ("/") cs

/-- Joining `base / p` for a relative `p`: concatenate components. -/
def pathJoin (base p : PPath) : PPath :=
  ⟨base.absolute, base.components ++ p.components⟩

/-- Embeds `Path.name`: the final component, `""` when there is none. -/
def PPath.name (p : PPath) : String :=
  p.components.getLast?.getD ("")

/-- Embeds `p.resolve()` under the no-symlink, no-`..` assumption: prepend the
current working directory when the path is relative. -/
def resolveAbs (cwd : List String) (p : PPath) : PPath :=
  if p.absolute then p else ⟨true, cwd ++ p.components⟩

/-- Embeds `p.relative_to(base)`: strip `base` as a component prefix; `none` models
the `ValueError` raised when `p` is not under `base`. -/
def relTo (base p : PPath) : Option PPath :=
  if base.absolute = p.absolute ∧ base.components.isPrefixOf p.components then
    some ⟨false, p.components.drop base.components.length⟩
  else
    none

/-! ### UTF-8 encoding (`str.encode("utf-8")` on valid scalar values) -/

/-- Standard UTF-8 encoding of one Unicode scalar value as byte values. -/
def utf8Char (c : Char) : List Nat :=
  let n := c.toNat
  if n < 128 then [n]
  else if n < 2048 then
    [192 ||| (n >>> 6), 128 ||| (n &&& 63)]
  else if n < 65536 then
    [224 ||| (n >>> 12), 128 ||| ((n >>> 6) &&& 63), 128 ||| (n &&& 63)]
  else
    [240 ||| (n >>> 18), 128 ||| ((n >>> 12) &&& 63),
     128 ||| ((n >>> 6) &&& 63), 128 ||| (n &&& 63)]

/-- UTF-8 encoding of a string as a list of byte values. -/
def utf8Encode (s : String) : List Nat :=
  s.data.flatMap utf8Char

/-- Embeds `len(s.encode("utf-8"))`. -/
def utf8Len (s : String) : Nat :=
  (utf8Encode s).length

/-! ### SHA-256 (`hashlib.sha256`), over lists of byte values -/

/-- Right rotation of a 32-bit word. -/
def rotr32 (n x : Nat) : Nat :=
  ((x >>> n) ||| (x <<< (32 - n))) % 4294967296

def sha256BigSigma0 (x : Nat) : Nat := rotr32 2 x ^^^ rotr32 13 x ^^^ rotr32 22 x

def sha256BigSigma1 (x : Nat) : Nat := rotr32 6 x ^^^ rotr32 11 x ^^^ rotr32 25 x

def sha256SmallSigma0 (x : Nat) : Nat := rotr32 7 x ^^^ rotr32 18 x ^^^ (x >>> 3)

def sha256SmallSigma1 (x : Nat) : Nat := rotr32 17 x ^^^ rotr32 19 x ^^^ (x >>> 10)

def sha256Ch (x y z : Nat) : Nat := (x &&& y) ^^^ ((x ^^^ 4294967295) &&& z)

def sha256Maj (x y z : Nat) : Nat := (x &&& y) ^^^ (x &&& z) ^^^ (y &&& z)

/-- The 64 SHA-256 round constants. -/
def sha256K : List Nat :=
  [1116352408, 1899447441, 3049323471, 3921009573, 961987163,
   1508970993, 2453635748, 2870763221, 3624381080, 310598401,
   607225278, 1426881987, 1925078388, 2162078206, 2614888103,
   3248222580, 3835390401, 4022224774, 264347078, 604807628,
   770255983, 1249150122, 1555081692, 1996064986, 2554220882,
   2821834349, 2952996808, 3210313671, 3336571891, 3584528711,
   113926993, 338241895, 666307205, 773529912, 1294757372,
   1396182291, 1695183700, 1986661051, 2177026350, 2456956037,
   2730485921, 2820302411, 3259730800, 3345764771, 3516065817,
   3600352804, 4094571909, 275423344, 430227734, 506948616,
   659060556, 883997877, 958139571, 1322822218, 1537002063,
   1747873779, 1955562222, 2024104815, 2227730452, 2361852424,
   2428436474, 2756734187, 3204031479, 3329325298]
/-- The initial SHA-256 hash state. -/
def sha256H0 : List Nat :=
  [1779033703, 3144134277, 1013904242, 2773480762,
   1359893119, 2600822924, 528734635, 1541459225]

/-- Big-endian 8-byte encoding of a length in bits. -/
def lenBE8 (n : Nat) : List Nat :=
  [(n >>> 56) % 256, (n >>> 48) % 256, (n >>> 40) % 256, (n >>> 32) % 256,
   (n >>> 24) % 256, (n >>> 16) % 256, (n >>> 8) % 256, n % 256]

/-- SHA-256 padding: append `0x80`, zeros to 56 mod 64, then the bit length. -/
def sha256Pad (msg : List Nat) : List Nat :=
  let L := msg.length
  msg ++ [128] ++ List.replicate ((119 - L % 64) % 64) 0 ++ lenBE8 (L * 8)

/-- Group bytes four at a time into big-endian 32-bit words. -/
def bytesToWords : List Nat → List Nat
  | a :: b :: c :: d :: rest =>
      (a * 16777216 + b * 65536 + c * 256 + d) :: bytesToWords rest
  | _ => []

/-- Extend the 16-word message schedule by `fuel` further words. -/
def sha256Extend (w : List Nat) : Nat → List Nat
  | 0 => w
  | fuel + 1 =>
      let t := w.length
      let next :=
        (sha256SmallSigma1 (w.getD (t - 2) 0) + w.getD (t - 7) 0 +
         sha256SmallSigma0 (w.getD (t - 15) 0) + w.getD (t - 16) 0) % 4294967296
      sha256Extend (w ++ [next]) fuel

/-- One SHA-256 compression round on the eight-word working state. -/
def sha256Round (s : List Nat) (kw : Nat × Nat) : List Nat :=
  match s with
  | [a, b, c, d, e, f, g, h] =>
      let t1 := (h + sha256BigSigma1 e + sha256Ch e f g + kw.1 + kw.2) % 4294967296
      let t2 := (sha256BigSigma0 a + sha256Maj a b c) % 4294967296
      [(t1 + t2) % 4294967296, a, b, c, (d + t1) % 4294967296, e, f, g]
  | s => s

/-- Process one 64-byte block into the running hash state. -/
def sha256Block (h : List Nat) (block : List Nat) : List Nat :=
  let w := sha256Extend (bytesToWords block) 48
  let s := (sha256K.zip w).foldl sha256Round h
  List.zipWith (fun x y => (x + y) % 4294967296) h s

/-- Split a padded message into 64-byte blocks (`fuel` bounds the recursion;
it is called with the message length, which suffices). -/
def splitBlocks (fuel : Nat) (bs : List Nat) : List (List Nat) :=
  match fuel, bs with
  | 0, _ => []
  | _, [] => []
  | f + 1, bs => bs.take 64 :: splitBlocks f (bs.drop 64)

/-- Big-endian 4-byte decomposition of a 32-bit word. -/
def wordBE4 (n : Nat) : List Nat :=
  [(n >>> 24) % 256, (n >>> 16) % 256, (n >>> 8) % 256, n % 256]

/-- SHA-256 digest (32 byte values) of a byte list. -/
def sha256Bytes (msg : List Nat) : List Nat :=
  let padded := sha256Pad msg
  let final := (splitBlocks padded.length padded).foldl sha256Block sha256H0
  final.flatMap wordBE4

/-- One lowercase hexadecimal digit. -/
def hexDigit (n : Nat) : Char :=
  if n < 10 then Char.ofNat (48 + n) else Char.ofNat (87 + n)

/-- Lowercase hexadecimal rendering of a byte list. -/
def hexString (bytes : List Nat) : String :=
  ⟨bytes.flatMap (fun b => [hexDigit (b / 16), hexDigit (b % 16)])⟩

/-- Embeds `sha256_text` from the source: SHA-256 hex digest of the UTF-8 encoding. -/
def sha256_text (s : String) : String :=
  hexString (sha256Bytes (utf8Encode s))


/-! ### The program: configuration, metadata probe, loader, emitter, `main` -/

/-- The parsed command line (`argparse` result).  `files` is the positional
list (at least one in any real invocation, `nargs="+"`); the limits are
Python `int`s, hence `Int`. -/
structure Config where
  files : List String
  maxFiles : Int
  maxBytes : Int
  noGit : Bool
  fence : Bool
deriving DecidableEq, Repr

/-- The environment seen through `run_git`: the (already `.strip()`-ped)
output of each `git rev-parse` sub-query, or `none` when `run_git` caught a
failure (tool missing, not a repository, command error). -/
structure GitEnv where
  showToplevel : Option String
  abbrevRef : Option String
  revParseHead : Option String
deriving DecidableEq, Repr

/-- One `(display_path, sha256, content)` tuple of the `entries` list. -/
structure FileEntry where
  display : String
  sha256 : String
  content : String
deriving DecidableEq, Repr

/-- The filesystem: `some c` means a regular file with decoded text `c`
exists at this resolved path; `none` means missing or not a regular file. -/
def FS : Type := PPath → Option String

/-- Outcome of the file-loading loop. -/
inductive LoadOutcome where
  | ok (entries : List FileEntry)
  | notAFile (raw : String)
  | tooLarge
deriving DecidableEq, Repr

/-- Loop outcome plus the trace of paths passed to `read_text_file`. -/
structure LoadResult where
  outcome : LoadOutcome
  reads : List PPath
deriving DecidableEq, Repr

/-- The diagnostic printed when too many files are supplied. -/
def tooManyMsg (n : Nat) (m : Int) : String :=
  "ERROR: Too many files (" ++ toString n ++ "). Max is " ++ toString m ++ "."

/-- The diagnostic printed for a missing or non-regular file. -/
def notFileMsg (raw : String) : String :=
  "ERROR: Not a file or missing: " ++ raw

/-- The diagnostic printed when the byte budget is exceeded. -/
def tooLargeMsg (m : Int) : String :=
  "ERROR: Context pack too large (>" ++ toString m ++
    " bytes). Reduce files or raise --max-bytes cautiously."

/-- Path resolution for one argument (lines 76–81): absolute paths stand;
relative ones are joined to the repo root when it is truthy, else to the
current working directory. -/
def resolveOne (repoRoot : Option String) (cwd : List String) (raw : String) : PPath :=
  let p := parsePath raw
  if p.absolute then p
  else if pyTruthy repoRoot then pathJoin (parsePath (repoRoot.getD (""))) p
  else pathJoin ⟨true, cwd⟩ p

/-- Display-path computation (lines 90–95): relative to the resolved repo
root when `relative_to` succeeds, else `str(p)`. -/
def displayOf (repoRoot : Option String) (cwd : List String) (p : PPath) : String :=
  if pyTruthy repoRoot then
    match relTo (resolveAbs cwd (parsePath (repoRoot.getD ("")))) (resolveAbs cwd p) with
    | some rel => rel.render
    | none => p.render
  else p.render

/-- The per-file loading loop (lines 75–106): resolve, check existence,
read, hash, compute the display path, enforce the byte budget, accumulate.
`total` is the running byte total entering the loop iteration. -/
def loadFiles (fs : FS) (repoRoot : Option String) (cwd : List String)
    (maxBytes : Int) : List String → Nat → LoadResult
  | [], _ => ⟨.ok [], []⟩
  | raw :: rest, total =>
    let p := resolveOne repoRoot cwd raw
    match fs p with
    | none => ⟨.notAFile raw, []⟩
    | some content =>
      let digest := sha256_text content
      let display := displayOf repoRoot cwd p
      let total' := total + utf8Len content
      if (total' : Int) > maxBytes then ⟨.tooLarge, [p]⟩
      else
        let r := loadFiles fs repoRoot cwd maxBytes rest total'
        { outcome :=
            match r.outcome with
            | .ok entries => .ok (⟨display, digest, content⟩ :: entries)
            | o => o
          reads := p :: r.reads }

/-- An optional header line: printed only when the value is truthy. -/
def optLine (label : String) (v : Option String) : List String :=
  match v with
  | some s => if s ≠ "" then [label ++ s] else []
  | none => []

/-- The per-entry print calls (lines 123–131). -/
def entryChunks (e : FileEntry) : List String :=
  ["BEGIN_FILE", "path: " ++ e.display, "sha256: " ++ e.sha256,
   "CONTENT_START", rstripNL e.content, "CONTENT_END", "END_FILE", ""]

/-- The whole sequence of print calls of a successful run (lines 108–137). -/
def packChunks (fence : Bool) (repoRoot repoName branch commit : Option String)
    (now : String) (entries : List FileEntry) : List String :=
  (if fence then ["```text"] else []) ++
  ["BEGIN_CONTEXT_PACK", "generated_utc: " ++ now] ++
  optLine ("repo_root: ") repoRoot ++
  optLine ("repo_name: ") repoName ++
  optLine ("git_branch: ") branch ++
  optLine ("git_commit: ") commit ++
  ["file_count: " ++ toString entries.length, ""] ++
  entries.flatMap entryChunks ++
  ["END_CONTEXT_PACK"] ++
  (if fence then ["```"] else [])

/-- Flatten print calls into the stdout text (`print` appends a newline). -/
def flatten (chunks : List String) : String :=
  chunks.foldr (fun c acc => c ++ "\n" ++ acc) ""

/-- The repo root variable after the probe (lines 57–63). -/
def probedRoot (cfg : Config) (git : GitEnv) : Option String :=
  if cfg.noGit then none else git.showToplevel

/-- The `git` invocations a run performs once it passes the max-files check:
root discovery always (unless `--no-git`), branch and commit only when the
discovered root is truthy. -/
def gitCallsOf (cfg : Config) (git : GitEnv) : List (List String) :=
  if cfg.noGit then []
  else
    [["rev-parse", "--show-toplevel"]] ++
      (if pyTruthy git.showToplevel then
        [["rev-parse", "--abbrev-ref", "HEAD"], ["rev-parse", "HEAD"]]
      else [])

/-- The observable result of a run: exit code, stdout text, stderr
diagnostics, the file-read trace, the git-invocation trace, and the final
in-memory entry list (empty unless emission was reached). -/
structure RunResult where
  exitCode : Nat
  stdout : String
  stderr : List String
  reads : List PPath
  gitCalls : List (List String)
  entries : List FileEntry
deriving DecidableEq, Repr

/-- The `repo_name` variable after the probe (lines 64–65). -/
def probedName (cfg : Config) (git : GitEnv) : Option String :=
  if pyTruthy (probedRoot cfg git) then
    some (parsePath ((probedRoot cfg git).getD (""))).name
  else none

/-- The `branch` variable after the probe (line 66). -/
def probedBranch (cfg : Config) (git : GitEnv) : Option String :=
  if pyTruthy (probedRoot cfg git) then git.abbrevRef else none

/-- The `commit` variable after the probe (line 67). -/
def probedCommit (cfg : Config) (git : GitEnv) : Option String :=
  if pyTruthy (probedRoot cfg git) then git.revParseHead else none

namespace ContextPack

/-- Embeds `main` (lines 43–139): validate the count, probe git, load the files,
emit the pack.  `now` stands for the formatted UTC timestamp. -/
def main (cfg : Config) (git : GitEnv) (fs : FS) (cwd : List String)
    (now : String) : RunResult :=
  if (cfg.files.length : Int) > cfg.maxFiles then
    ⟨2, "", [tooManyMsg cfg.files.length cfg.maxFiles], [], [], []⟩
  else
    match loadFiles fs (probedRoot cfg git) cwd cfg.maxBytes cfg.files 0 with
    | ⟨.notAFile raw, reads⟩ =>
        ⟨2, "", [notFileMsg raw], reads, gitCallsOf cfg git, []⟩
    | ⟨.tooLarge, reads⟩ =>
        ⟨2, "", [tooLargeMsg cfg.maxBytes], reads, gitCallsOf cfg git, []⟩
    | ⟨.ok entries, reads⟩ =>
        ⟨0, flatten (packChunks cfg.fence (probedRoot cfg git) (probedName cfg git)
              (probedBranch cfg git) (probedCommit cfg git) now entries),
         [], reads, gitCallsOf cfg git, entries⟩

end ContextPack

/-! ### Derived notions used by the statements -/

/-- The entry the loop builds for one argument, assuming its file is found
(`getD ""` is only exercised on found files). -/
def entryOf (fs : FS) (repoRoot : Option String) (cwd : List String)
    (raw : String) : FileEntry :=
  let p := resolveOne repoRoot cwd raw
  let c := (fs p).getD ("")
  ⟨displayOf repoRoot cwd p, sha256_text c, c⟩

/-- The UTF-8 byte size the loop accounts for one argument. -/
def entrySize (fs : FS) (repoRoot : Option String) (cwd : List String)
    (raw : String) : Nat :=
  utf8Len ((fs (resolveOne repoRoot cwd raw)).getD (""))

/-- The running byte total after processing a list of arguments. -/
def runningSize (fs : FS) (repoRoot : Option String) (cwd : List String)
    (raws : List String) : Nat :=
  (raws.map (entrySize fs repoRoot cwd)).sum

/-- The raw text the emitter places between the `CONTENT_START` line and the
`CONTENT_END` line for an entry: the content with trailing newlines
stripped, plus the newline that `print` appends. -/
def betweenSentinels (e : FileEntry) : String :=
  rstripNL e.content ++ "\n"

/-- The spec's path-resolution rule (§4.3 step 1), stated from its words:
"If the path is not absolute, resolve it against the discovered repository
root if known, otherwise against the current working directory."  To be
compared with `resolveOne`, which is read off the code. -/
def specResolve (repoRoot : Option String) (cwd : List String)
    (raw : String) : PPath :=
  if ¬(parsePath raw).absolute then
    if pyTruthy repoRoot then pathJoin (parsePath (repoRoot.getD (""))) (parsePath raw)
    else pathJoin ⟨true, cwd⟩ (parsePath raw)
  else parsePath raw

/-- The spec's display-path rule (§4.3 step 5), stated from its words: "if a
repository root is known and the resolved absolute path lies under it, use
the path relative to that root; otherwise use the resolved path as-is."  To
be compared with `displayOf`, which is read off the code. -/
def specDisplay (repoRoot : Option String) (cwd : List String)
    (p : PPath) : String :=
  let rootAbs := resolveAbs cwd (parsePath (repoRoot.getD ("")))
  let pAbs := resolveAbs cwd p
  if pyTruthy repoRoot && (rootAbs.absolute == pAbs.absolute) &&
      rootAbs.components.isPrefixOf pAbs.components then
    (PPath.mk false (pAbs.components.drop rootAbs.components.length)).render
  else p.render

/-- A two-file filesystem used for concrete runs: `/a` holds `"hi\n"` and
`/b` holds `"bye"`. -/
def fsA : FS := fun p =>
  if p = ⟨true, ["a"]⟩ then some ("hi\n")
  else if p = ⟨true, ["b"]⟩ then some ("bye")
  else none

/-- A one-file filesystem whose file content ends in two newlines. -/
def fsB : FS := fun p =>
  if p = ⟨true, ["a"]⟩ then some ("hi\n\n") else none

/-! ### Helper lemmas -/

/-- Sanity: the SHA-256 embedding reproduces a known digest. -/
theorem sha256_text_known_vector :
    sha256_text ("hi") =
      "8f434346648f6b96df89dda901c5176b10a6d83961dd3c1ac88b59b2dc327aa4" := by
  decide

/-- Sanity: the SHA-256 embedding reproduces a second known digest. -/
theorem sha256_text_known_vector2 :
    sha256_text ("ok\n") =
      "dc51b8c96c2d745df3bd5590d990230a482fd247123599548e0632fdbf97fc22" := by
  decide

theorem flatten_nil : flatten [] = "" := rfl

theorem flatten_cons (c : String) (cs : List String) :
    flatten (c :: cs) = c ++ "\n" ++ flatten cs := rfl

theorem flatten_append (xs ys : List String) :
    flatten (xs ++ ys) = flatten xs ++ flatten ys := by
  induction xs with
  | nil => simp [flatten_nil, String.empty_append]
  | cons c cs ih => simp [flatten_cons, ih, String.append_assoc]

theorem mem_flatten_decomp (cs : List String) (c : String) (h : c ∈ cs) :
    ∃ pre post, flatten cs = pre ++ (c ++ "\n") ++ post := by
  induction cs with
  | nil => cases h
  | cons d ds ih =>
    rcases List.mem_cons.1 h with rfl | h'
    · exact ⟨"", flatten ds, by
        simp [flatten_cons, String.empty_append, String.append_assoc]⟩
    · obtain ⟨pre, post, hp⟩ := ih h'
      exact ⟨d ++ "\n" ++ pre, post, by
        simp [flatten_cons, hp, String.append_assoc]⟩

theorem runningSize_nil (fs : FS) (root : Option String) (cwd : List String) :
    runningSize fs root cwd [] = 0 := rfl

theorem runningSize_cons (fs : FS) (root : Option String) (cwd : List String)
    (raw : String) (raws : List String) :
    runningSize fs root cwd (raw :: raws) =
      entrySize fs root cwd raw + runningSize fs root cwd raws := by
  simp [runningSize]

theorem loadFiles_nil (fs : FS) (root : Option String) (cwd : List String)
    (mb : Int) (total : Nat) :
    loadFiles fs root cwd mb [] total = ⟨.ok [], []⟩ := rfl

theorem loadFiles_cons_missing (fs : FS) (root : Option String)
    (cwd : List String) (mb : Int) (raw : String) (rest : List String)
    (total : Nat) (h : fs (resolveOne root cwd raw) = none) :
    loadFiles fs root cwd mb (raw :: rest) total = ⟨.notAFile raw, []⟩ := by
  rw [loadFiles, h]

theorem loadFiles_cons_found (fs : FS) (root : Option String)
    (cwd : List String) (mb : Int) (raw : String) (rest : List String)
    (total : Nat) (c : String) (h : fs (resolveOne root cwd raw) = some c) :
    loadFiles fs root cwd mb (raw :: rest) total =
      if ((total + utf8Len c : Nat) : Int) > mb then
        ⟨.tooLarge, [resolveOne root cwd raw]⟩
      else
        let r := loadFiles fs root cwd mb rest (total + utf8Len c)
        ⟨match r.outcome with
          | .ok es =>
              .ok (⟨displayOf root cwd (resolveOne root cwd raw),
                    sha256_text c, c⟩ :: es)
          | o => o,
         resolveOne root cwd raw :: r.reads⟩ := by
  rw [loadFiles, h]

theorem loadFiles_ok_char (fs : FS) (root : Option String) (cwd : List String)
    (mb : Int) :
    ∀ (raws : List String) (total : Nat) (entries : List FileEntry)
      (reads : List PPath),
      loadFiles fs root cwd mb raws total = ⟨.ok entries, reads⟩ →
      entries = raws.map (entryOf fs root cwd) ∧
      reads = raws.map (resolveOne root cwd) ∧
      (∀ raw ∈ raws, (fs (resolveOne root cwd raw)).isSome) ∧
      (∀ k ∈ List.range raws.length,
        ((total + runningSize fs root cwd (raws.take (k + 1)) : Nat) : Int) ≤ mb) := by
  intro raws
  induction raws with
  | nil =>
    intro total entries reads h
    rw [loadFiles_nil] at h
    simp only [LoadResult.mk.injEq, LoadOutcome.ok.injEq] at h
    obtain ⟨h1, h2⟩ := h
    subst h1
    subst h2
    simp
  | cons raw rest ih =>
    intro total entries reads h
    cases hfs : fs (resolveOne root cwd raw) with
    | none =>
      rw [loadFiles_cons_missing fs root cwd mb raw rest total hfs] at h
      simp at h
    | some c =>
      rw [loadFiles_cons_found fs root cwd mb raw rest total c hfs] at h
      by_cases hb : ((total + utf8Len c : Nat) : Int) > mb
      · rw [if_pos hb] at h
        simp at h
      · rw [if_neg hb] at h
        simp only at h
        rcases hrec : loadFiles fs root cwd mb rest (total + utf8Len c) with ⟨o, rds⟩
        rw [hrec] at h
        cases o with
        | notAFile raw' => simp at h
        | tooLarge => simp at h
        | ok es =>
          simp only [LoadResult.mk.injEq, LoadOutcome.ok.injEq] at h
          obtain ⟨he, hr⟩ := h
          obtain ⟨ihe, ihr, ihs, ihb⟩ := ih (total + utf8Len c) es rds hrec
          refine ⟨?_, ?_, ?_, ?_⟩
          · subst he ihe
            simp [entryOf, hfs]
          · subst hr ihr
            simp
          · intro r hr'
            rcases List.mem_cons.1 hr' with rfl | hmem
            · simp [hfs]
            · exact ihs r hmem
          · intro k hk
            rw [List.mem_range] at hk
            cases k with
            | zero =>
              simp only [List.take_succ_cons, List.take_zero]
              rw [runningSize_cons, runningSize_nil]
              have : entrySize fs root cwd raw = utf8Len c := by
                simp [entrySize, hfs]
              rw [this]
              omega
            | succ j =>
              have hj : j ∈ List.range rest.length := by
                rw [List.mem_range]
                simpa using Nat.lt_of_succ_lt_succ hk
              have := ihb j hj
              rw [List.take_succ_cons, runningSize_cons]
              have hsz : entrySize fs root cwd raw = utf8Len c := by
                simp [entrySize, hfs]
              rw [hsz]
              omega

theorem loadFiles_notFound_char (fs : FS) (root : Option String)
    (cwd : List String) (mb : Int) :
    ∀ (raws : List String) (total : Nat) (i : Nat),
      i < raws.length →
      (∀ j ∈ List.range i, (fs (resolveOne root cwd (raws.getD j ("")))).isSome) →
      (∀ j ∈ List.range i,
        ((total + runningSize fs root cwd (raws.take (j + 1)) : Nat) : Int) ≤ mb) →
      fs (resolveOne root cwd (raws.getD i (""))) = none →
      loadFiles fs root cwd mb raws total =
        ⟨.notAFile (raws.getD i ("")), (raws.take i).map (resolveOne root cwd)⟩ := by
  intro raws
  induction raws with
  | nil =>
    intro total i hi
    simp at hi
  | cons raw rest ih =>
    intro total i hi hex hbud hmiss
    cases i with
    | zero =>
      rw [List.getD_cons_zero] at hmiss
      rw [loadFiles_cons_missing fs root cwd mb raw rest total hmiss]
      simp
    | succ j =>
      have h0 : (fs (resolveOne root cwd raw)).isSome := by
        have := hex 0 (by rw [List.mem_range]; omega)
        rwa [List.getD_cons_zero] at this
      obtain ⟨c, hc⟩ := Option.isSome_iff_exists.1 h0
      have hsz : entrySize fs root cwd raw = utf8Len c := by
        simp [entrySize, hc]
      have hb0 : ((total + utf8Len c : Nat) : Int) ≤ mb := by
        have := hbud 0 (by rw [List.mem_range]; omega)
        rw [List.take_succ_cons, List.take_zero, runningSize_cons,
          runningSize_nil, hsz] at this
        omega
      rw [loadFiles_cons_found fs root cwd mb raw rest total c hc,
        if_neg (by omega)]
      have hIH := ih (total + utf8Len c) j (by simpa using Nat.lt_of_succ_lt_succ hi)
        (fun j' hj' => by
          have := hex (j' + 1) (by rw [List.mem_range] at hj' ⊢; omega)
          rwa [List.getD_cons_succ] at this)
        (fun j' hj' => by
          have := hbud (j' + 1) (by rw [List.mem_range] at hj' ⊢; omega)
          rw [List.take_succ_cons, runningSize_cons, hsz] at this
          omega)
        (by
          have := hmiss
          rwa [List.getD_cons_succ] at this)
      simp only [hIH]
      rw [List.getD_cons_succ, List.take_succ_cons, List.map_cons]

theorem loadFiles_trips_char (fs : FS) (root : Option String)
    (cwd : List String) (mb : Int) :
    ∀ (raws : List String) (total : Nat) (i : Nat),
      i < raws.length →
      (∀ j ∈ List.range (i + 1), (fs (resolveOne root cwd (raws.getD j ("")))).isSome) →
      (∀ j ∈ List.range i,
        ((total + runningSize fs root cwd (raws.take (j + 1)) : Nat) : Int) ≤ mb) →
      ((total + runningSize fs root cwd (raws.take (i + 1)) : Nat) : Int) > mb →
      loadFiles fs root cwd mb raws total =
        ⟨.tooLarge, (raws.take (i + 1)).map (resolveOne root cwd)⟩ := by
  intro raws
  induction raws with
  | nil =>
    intro total i hi
    simp at hi
  | cons raw rest ih =>
    intro total i hi hex hbud htrip
    have h0 : (fs (resolveOne root cwd raw)).isSome := by
      have := hex 0 (by rw [List.mem_range]; omega)
      rwa [List.getD_cons_zero] at this
    obtain ⟨c, hc⟩ := Option.isSome_iff_exists.1 h0
    have hsz : entrySize fs root cwd raw = utf8Len c := by
      simp [entrySize, hc]
    cases i with
    | zero =>
      rw [List.take_succ_cons, List.take_zero, runningSize_cons,
        runningSize_nil, hsz] at htrip
      rw [loadFiles_cons_found fs root cwd mb raw rest total c hc,
        if_pos (by omega)]
      simp
    | succ j =>
      have hb0 : ((total + utf8Len c : Nat) : Int) ≤ mb := by
        have := hbud 0 (by rw [List.mem_range]; omega)
        rw [List.take_succ_cons, List.take_zero, runningSize_cons,
          runningSize_nil, hsz] at this
        omega
      rw [loadFiles_cons_found fs root cwd mb raw rest total c hc,
        if_neg (by omega)]
      have hIH := ih (total + utf8Len c) j (by simpa using Nat.lt_of_succ_lt_succ hi)
        (fun j' hj' => by
          have := hex (j' + 1) (by rw [List.mem_range] at hj' ⊢; omega)
          rwa [List.getD_cons_succ] at this)
        (fun j' hj' => by
          have := hbud (j' + 1) (by rw [List.mem_range] at hj' ⊢; omega)
          rw [List.take_succ_cons, runningSize_cons, hsz] at this
          omega)
        (by
          rw [List.take_succ_cons, runningSize_cons, hsz] at htrip
          omega)
      simp only [hIH]
      rw [List.take_succ_cons, List.map_cons]

theorem main_tooMany (cfg : Config) (git : GitEnv) (fs : FS)
    (cwd : List String) (now : String)
    (h : (cfg.files.length : Int) > cfg.maxFiles) :
    ContextPack.main cfg git fs cwd now =
      ⟨2, "", [tooManyMsg cfg.files.length cfg.maxFiles], [], [], []⟩ := by
  rw [ContextPack.main, if_pos h]

theorem main_of_notFound (cfg : Config) (git : GitEnv) (fs : FS)
    (cwd : List String) (now : String) (raw : String) (reads : List PPath)
    (hlen : ¬((cfg.files.length : Int) > cfg.maxFiles))
    (hload : loadFiles fs (probedRoot cfg git) cwd cfg.maxBytes cfg.files 0 =
      ⟨.notAFile raw, reads⟩) :
    ContextPack.main cfg git fs cwd now =
      ⟨2, "", [notFileMsg raw], reads, gitCallsOf cfg git, []⟩ := by
  rw [ContextPack.main, if_neg hlen, hload]

theorem main_of_tooLarge (cfg : Config) (git : GitEnv) (fs : FS)
    (cwd : List String) (now : String) (reads : List PPath)
    (hlen : ¬((cfg.files.length : Int) > cfg.maxFiles))
    (hload : loadFiles fs (probedRoot cfg git) cwd cfg.maxBytes cfg.files 0 =
      ⟨.tooLarge, reads⟩) :
    ContextPack.main cfg git fs cwd now =
      ⟨2, "", [tooLargeMsg cfg.maxBytes], reads, gitCallsOf cfg git, []⟩ := by
  rw [ContextPack.main, if_neg hlen, hload]

theorem main_of_ok (cfg : Config) (git : GitEnv) (fs : FS)
    (cwd : List String) (now : String) (entries : List FileEntry)
    (reads : List PPath)
    (hlen : ¬((cfg.files.length : Int) > cfg.maxFiles))
    (hload : loadFiles fs (probedRoot cfg git) cwd cfg.maxBytes cfg.files 0 =
      ⟨.ok entries, reads⟩) :
    ContextPack.main cfg git fs cwd now =
      ⟨0, flatten (packChunks cfg.fence (probedRoot cfg git) (probedName cfg git)
            (probedBranch cfg git) (probedCommit cfg git) now entries),
       [], reads, gitCallsOf cfg git, entries⟩ := by
  rw [ContextPack.main, if_neg hlen, hload]

theorem main_success_char (cfg : Config) (git : GitEnv) (fs : FS)
    (cwd : List String) (now : String)
    (h0 : (ContextPack.main cfg git fs cwd now).exitCode = 0) :
    ¬((cfg.files.length : Int) > cfg.maxFiles) ∧
    (ContextPack.main cfg git fs cwd now).entries =
      cfg.files.map (entryOf fs (probedRoot cfg git) cwd) ∧
    (ContextPack.main cfg git fs cwd now).reads =
      cfg.files.map (resolveOne (probedRoot cfg git) cwd) ∧
    (∀ raw ∈ cfg.files, (fs (resolveOne (probedRoot cfg git) cwd raw)).isSome) ∧
    (∀ k ∈ List.range cfg.files.length,
      ((runningSize fs (probedRoot cfg git) cwd (cfg.files.take (k + 1)) : Nat) : Int)
        ≤ cfg.maxBytes) ∧
    (ContextPack.main cfg git fs cwd now).stdout =
      flatten (packChunks cfg.fence (probedRoot cfg git) (probedName cfg git)
        (probedBranch cfg git) (probedCommit cfg git) now
        ((ContextPack.main cfg git fs cwd now).entries)) ∧
    (ContextPack.main cfg git fs cwd now).stderr = [] := by
  by_cases hlen : (cfg.files.length : Int) > cfg.maxFiles
  · rw [main_tooMany cfg git fs cwd now hlen] at h0
    simp at h0
  · rcases hload : loadFiles fs (probedRoot cfg git) cwd cfg.maxBytes cfg.files 0
      with ⟨o, reads⟩
    cases o with
    | notAFile raw =>
      rw [main_of_notFound cfg git fs cwd now raw reads hlen hload] at h0
      simp at h0
    | tooLarge =>
      rw [main_of_tooLarge cfg git fs cwd now reads hlen hload] at h0
      simp at h0
    | ok es =>
      obtain ⟨he, hr, hs, hb⟩ :=
        loadFiles_ok_char fs (probedRoot cfg git) cwd cfg.maxBytes cfg.files 0 es
          reads hload
      rw [main_of_ok cfg git fs cwd now es reads hlen hload]
      refine ⟨hlen, by simpa using he, by simpa using hr, hs, ?_, rfl, rfl⟩
      intro k hk
      have := hb k hk
      simpa using this

/-! ### Claims -/

/-- C7: when the number of positional file arguments exceeds the configured
maximum file count, the run exits with code 2, prints nothing to standard
output, performs no file I/O and no git query (the result is independent of
the filesystem and git environment, with empty read and git traces), and
the single stderr diagnostic reports the file count and the limit. -/
theorem tooMany_exits_before_io (cfg : Config) (git : GitEnv) (fs : FS)
    (cwd : List String) (now : String)
    (h : (cfg.files.length : Int) > cfg.maxFiles) :
    ContextPack.main cfg git fs cwd now =
      ⟨2, "", [tooManyMsg cfg.files.length cfg.maxFiles], [], [], []⟩ :=
  main_tooMany cfg git fs cwd now h

/-- Witness for C7 at a concrete run: three files against a limit of two. -/
theorem tooMany_exits_before_io_witness :
    (((["a", "b", "c"].length : Nat) : Int) > 2 ∧
      ContextPack.main ⟨["a", "b", "c"], 2, 100, true, false⟩ ⟨none, none, none⟩
          fsA [] "t" =
        ⟨2, "", [tooManyMsg 3 2], [], [], []⟩) :=
  ⟨by decide,
   tooMany_exits_before_io ⟨["a", "b", "c"], 2, 100, true, false⟩
     ⟨none, none, none⟩ fsA [] "t" (by decide)⟩

/-- C2: the byte budget is enforced incrementally in input order.  If the
first `i` files are all readable and keep every running total within the
budget, and reading file `i` pushes the running total over the budget, the
run exits with code 2, prints nothing to standard output, emits the
too-large diagnostic on stderr, and the read trace is exactly the resolved
first `i + 1` arguments — no later file is ever read. -/
theorem budget_enforced_incrementally (cfg : Config) (git : GitEnv) (fs : FS)
    (cwd : List String) (now : String) (i : Nat)
    (hlen : ¬((cfg.files.length : Int) > cfg.maxFiles))
    (hi : i < cfg.files.length)
    (hex : ∀ j ∈ List.range (i + 1),
      (fs (resolveOne (probedRoot cfg git) cwd (cfg.files.getD j ("")))).isSome)
    (hbud : ∀ j ∈ List.range i,
      ((runningSize fs (probedRoot cfg git) cwd (cfg.files.take (j + 1)) : Nat) : Int)
        ≤ cfg.maxBytes)
    (htrip :
      ((runningSize fs (probedRoot cfg git) cwd (cfg.files.take (i + 1)) : Nat) : Int)
        > cfg.maxBytes) :
    ContextPack.main cfg git fs cwd now =
      ⟨2, "", [tooLargeMsg cfg.maxBytes],
       (cfg.files.take (i + 1)).map (resolveOne (probedRoot cfg git) cwd),
       gitCallsOf cfg git, []⟩ := by
  have hload := loadFiles_trips_char fs (probedRoot cfg git) cwd cfg.maxBytes
    cfg.files 0 i hi hex
    (fun j hj => by simpa using hbud j hj)
    (by simpa using htrip)
  exact main_of_tooLarge cfg git fs cwd now _ hlen hload

/-- Witness for C2 at a concrete run: two 3-byte files against a 3-byte
budget; the second file trips the limit and both files appear in the read
trace. -/
theorem budget_enforced_incrementally_witness :
    ((¬(((["a", "b"].length : Nat) : Int) > 5)) ∧
      (∀ j ∈ List.range 2,
        (fsA (resolveOne (probedRoot ⟨["a", "b"], 5, 3, true, false⟩
          ⟨none, none, none⟩) [] (["a", "b"].getD j ("")))).isSome) ∧
      ContextPack.main ⟨["a", "b"], 5, 3, true, false⟩ ⟨none, none, none⟩
          fsA [] "t" =
        ⟨2, "", [tooLargeMsg 3], [⟨true, ["a"]⟩, ⟨true, ["b"]⟩], [], []⟩) := by
  refine ⟨by decide, by decide, ?_⟩
  have h := budget_enforced_incrementally ⟨["a", "b"], 5, 3, true, false⟩
    ⟨none, none, none⟩ fsA [] "t" 1 (by decide) (by decide) (by decide)
    (by decide) (by decide)
  simpa using h

/-- C8: a missing (or non-regular) file at any position `i` of the argument
list — given that the earlier files are all readable and keep the running
total within the budget, so the loop reaches it — makes the run exit with
code 2, print nothing to standard output, and emit a stderr diagnostic
naming that path's original argument; only the earlier files were read. -/
theorem missing_file_fails (cfg : Config) (git : GitEnv) (fs : FS)
    (cwd : List String) (now : String) (i : Nat)
    (hlen : ¬((cfg.files.length : Int) > cfg.maxFiles))
    (hi : i < cfg.files.length)
    (hex : ∀ j ∈ List.range i,
      (fs (resolveOne (probedRoot cfg git) cwd (cfg.files.getD j ("")))).isSome)
    (hbud : ∀ j ∈ List.range i,
      ((runningSize fs (probedRoot cfg git) cwd (cfg.files.take (j + 1)) : Nat) : Int)
        ≤ cfg.maxBytes)
    (hmiss : fs (resolveOne (probedRoot cfg git) cwd (cfg.files.getD i (""))) = none) :
    ContextPack.main cfg git fs cwd now =
      ⟨2, "", [notFileMsg (cfg.files.getD i (""))],
       (cfg.files.take i).map (resolveOne (probedRoot cfg git) cwd),
       gitCallsOf cfg git, []⟩ := by
  have hload := loadFiles_notFound_char fs (probedRoot cfg git) cwd cfg.maxBytes
    cfg.files 0 i hi hex
    (fun j hj => by simpa using hbud j hj)
    hmiss
  exact main_of_notFound cfg git fs cwd now _ _ hlen hload

/-- Witness for C8 at a concrete run: the second argument names no file;
the run fails naming `missing` and only the first file was read. -/
theorem missing_file_fails_witness :
    (fsA (resolveOne (probedRoot ⟨["a", "missing"], 5, 100, true, false⟩
        ⟨none, none, none⟩) [] (["a", "missing"].getD 1 (""))) = none ∧
      ContextPack.main ⟨["a", "missing"], 5, 100, true, false⟩
          ⟨none, none, none⟩ fsA [] "t" =
        ⟨2, "", [notFileMsg ("missing")], [⟨true, ["a"]⟩], [], []⟩) := by
  refine ⟨by decide, ?_⟩
  have h := missing_file_fails ⟨["a", "missing"], 5, 100, true, false⟩
    ⟨none, none, none⟩ fsA [] "t" 1 (by decide) (by decide) (by decide)
    (by decide) (by decide)
  simpa using h

/-- C4: on a successful run the entry list is exactly one entry per input
path, in input order with duplicates preserved; every running byte total,
checked after each file, stays within the budget; and the emitted pack
contains a `file_count:` line equal to the number of input paths. -/
theorem loader_invariants (cfg : Config) (git : GitEnv) (fs : FS)
    (cwd : List String) (now : String)
    (h0 : (ContextPack.main cfg git fs cwd now).exitCode = 0) :
    (ContextPack.main cfg git fs cwd now).entries.length = cfg.files.length ∧
    (ContextPack.main cfg git fs cwd now).entries =
      cfg.files.map (entryOf fs (probedRoot cfg git) cwd) ∧
    (∀ k ∈ List.range cfg.files.length,
      ((runningSize fs (probedRoot cfg git) cwd (cfg.files.take (k + 1)) : Nat) : Int)
        ≤ cfg.maxBytes) ∧
    (∃ pre post, (ContextPack.main cfg git fs cwd now).stdout =
      pre ++ ("file_count: " ++ toString cfg.files.length ++ "\n") ++ post) := by
  obtain ⟨hlen, hent, hreads, hsome, hbud, hstd, hstderr⟩ :=
    main_success_char cfg git fs cwd now h0
  have hcount : (ContextPack.main cfg git fs cwd now).entries.length =
      cfg.files.length := by
    rw [hent, List.length_map]
  refine ⟨hcount, hent, hbud, ?_⟩
  have hmem : ("file_count: " ++
      toString (ContextPack.main cfg git fs cwd now).entries.length) ∈
      packChunks cfg.fence (probedRoot cfg git) (probedName cfg git)
        (probedBranch cfg git) (probedCommit cfg git) now
        ((ContextPack.main cfg git fs cwd now).entries) := by
    simp [packChunks]
  rw [hcount] at hmem
  rw [hstd]
  exact mem_flatten_decomp _ _ hmem

/-- Witness for C4 at a concrete run over `/a` and `/b`. -/
theorem loader_invariants_witness :
    (ContextPack.main ⟨["a", "b"], 5, 100, true, false⟩ ⟨none, none, none⟩
        fsA [] "t").exitCode = 0 ∧
    (ContextPack.main ⟨["a", "b"], 5, 100, true, false⟩ ⟨none, none, none⟩
        fsA [] "t").entries.length = 2 := by
  have h := loader_invariants ⟨["a", "b"], 5, 100, true, false⟩
    ⟨none, none, none⟩ fsA [] "t" (by decide)
  exact ⟨by decide, h.1⟩

/-- C3: on a successful run, every entry of the pack records as `sha256`
exactly the SHA-256 lowercase-hex digest of the UTF-8 encoding of the
content read from the filesystem for one of the input paths, and a
`sha256:` line with that digest appears on standard output. -/
theorem sha256_recorded_correct (cfg : Config) (git : GitEnv) (fs : FS)
    (cwd : List String) (now : String)
    (h0 : (ContextPack.main cfg git fs cwd now).exitCode = 0) :
    ∀ e ∈ (ContextPack.main cfg git fs cwd now).entries,
      ∃ raw c, raw ∈ cfg.files ∧
        fs (resolveOne (probedRoot cfg git) cwd raw) = some c ∧
        e.sha256 = sha256_text c ∧ e.content = c ∧
        ∃ pre post, (ContextPack.main cfg git fs cwd now).stdout =
          pre ++ ("sha256: " ++ sha256_text c ++ "\n") ++ post := by
  obtain ⟨hlen, hent, hreads, hsome, hbud, hstd, hstderr⟩ :=
    main_success_char cfg git fs cwd now h0
  intro e he
  have he' := he
  rw [hent] at he'
  obtain ⟨raw, hraw, hE⟩ := List.mem_map.1 he'
  obtain ⟨c, hc⟩ := Option.isSome_iff_exists.1 (hsome raw hraw)
  have hcontent : (fs (resolveOne (probedRoot cfg git) cwd raw)).getD ("") = c := by
    rw [hc]
    rfl
  refine ⟨raw, c, hraw, hc, ?_, ?_, ?_⟩
  · rw [← hE]
    simp [entryOf, hcontent]
  · rw [← hE]
    simp [entryOf, hcontent]
  · have hsha : e.sha256 = sha256_text c := by
      rw [← hE]
      simp [entryOf, hcontent]
    have h1 : ("sha256: " ++ sha256_text c) ∈ entryChunks e := by
      simp [entryChunks, hsha]
    have h2 : ("sha256: " ++ sha256_text c) ∈
        (ContextPack.main cfg git fs cwd now).entries.flatMap entryChunks :=
      List.mem_flatMap.2 ⟨e, he, h1⟩
    have h3 : ("sha256: " ++ sha256_text c) ∈
        packChunks cfg.fence (probedRoot cfg git) (probedName cfg git)
          (probedBranch cfg git) (probedCommit cfg git) now
          ((ContextPack.main cfg git fs cwd now).entries) := by
      simp only [packChunks, List.mem_append]
      tauto
    rw [hstd]
    exact mem_flatten_decomp _ _ h3

/-- Witness for C3 at a concrete run over `/a` and `/b`. -/
theorem sha256_recorded_correct_witness :
    (ContextPack.main ⟨["a"], 5, 100, true, false⟩ ⟨none, none, none⟩
        fsA [] "t").exitCode = 0 ∧
    (∃ raw c, raw ∈ (["a"] : List String) ∧
      fsA (resolveOne (probedRoot ⟨["a"], 5, 100, true, false⟩
        ⟨none, none, none⟩) [] raw) = some c ∧
      (FileEntry.mk ("/a")
        "98ea6e4f216f2fb4b69fff9b3a44842c38686ca685f3f55dc48c5d3fb1107be4"
        "hi\n").sha256 = sha256_text c ∧
      (FileEntry.mk ("/a")
        "98ea6e4f216f2fb4b69fff9b3a44842c38686ca685f3f55dc48c5d3fb1107be4"
        "hi\n").content = c ∧
      ∃ pre post, (ContextPack.main ⟨["a"], 5, 100, true, false⟩
          ⟨none, none, none⟩ fsA [] "t").stdout =
        pre ++ ("sha256: " ++ sha256_text c ++ "\n") ++ post) := by
  refine ⟨by decide, ?_⟩
  have h := sha256_recorded_correct ⟨["a"], 5, 100, true, false⟩
    ⟨none, none, none⟩ fsA [] "t" (by decide)
    (FileEntry.mk ("/a")
      "98ea6e4f216f2fb4b69fff9b3a44842c38686ca685f3f55dc48c5d3fb1107be4"
      "hi\n")
    (by decide)
  exact h

/-- C1 (counterexample): in a successful concrete run over a file whose
content is `"hi\n\n"`, the digest recomputed from the emitted content
between the sentinels (`"hi\n"`: trailing newlines stripped, plus the
newline `print` appends) differs from the recorded `sha256:` value, so the
round-trip claimed for every accepted file fails.  (The digest of the
stripped text without the final line terminator, `"hi"`, differs too.) -/
theorem roundtrip_counterexample :
    (ContextPack.main ⟨["a"], 5, 100, true, false⟩ ⟨none, none, none⟩
        fsB [] "t").exitCode = 0 ∧
    ((ContextPack.main ⟨["a"], 5, 100, true, false⟩ ⟨none, none, none⟩
        fsB [] "t").entries.getD 0 ⟨"", "", ""⟩).content = "hi\n\n" ∧
    sha256_text (betweenSentinels ((ContextPack.main ⟨["a"], 5, 100, true, false⟩
        ⟨none, none, none⟩ fsB [] "t").entries.getD 0 ⟨"", "", ""⟩)) ≠
      ((ContextPack.main ⟨["a"], 5, 100, true, false⟩ ⟨none, none, none⟩
        fsB [] "t").entries.getD 0 ⟨"", "", ""⟩).sha256 ∧
    sha256_text (rstripNL ("hi\n\n")) ≠ sha256_text ("hi\n\n") := by
  refine ⟨by decide, by decide, by decide, by decide⟩

/-- C1 (amended): the recorded digest is always the digest of the content
as read, while the emitted content between the sentinels is the content
with trailing newlines normalised to exactly one; hence recomputing the
digest from the emitted content reproduces the recorded value exactly for
those accepted files whose content ends in exactly one newline (that is,
stripping trailing newlines and appending one reproduces the content). -/
theorem roundtrip_for_newline_terminated (cfg : Config) (git : GitEnv)
    (fs : FS) (cwd : List String) (now : String)
    (h0 : (ContextPack.main cfg git fs cwd now).exitCode = 0) :
    ∀ e ∈ (ContextPack.main cfg git fs cwd now).entries,
      rstripNL e.content ++ "\n" = e.content →
      sha256_text (betweenSentinels e) = e.sha256 := by
  obtain ⟨hlen, hent, hreads, hsome, hbud, hstd, hstderr⟩ :=
    main_success_char cfg git fs cwd now h0
  intro e he hnorm
  rw [hent] at he
  obtain ⟨raw, hraw, hE⟩ := List.mem_map.1 he
  have hsha : e.sha256 = sha256_text e.content := by
    rw [← hE]
    simp [entryOf]
  rw [hsha, betweenSentinels, hnorm]

/-- Witness for C1 (amended) at a concrete run: the file `/a` holds
`"hi\n"`, which ends in exactly one newline, and the round-trip holds. -/
theorem roundtrip_for_newline_terminated_witness :
    (ContextPack.main ⟨["a"], 5, 100, true, false⟩ ⟨none, none, none⟩
        fsA [] "t").exitCode = 0 ∧
    sha256_text (betweenSentinels (FileEntry.mk ("/a")
        "98ea6e4f216f2fb4b69fff9b3a44842c38686ca685f3f55dc48c5d3fb1107be4"
        "hi\n")) =
      (FileEntry.mk ("/a")
        "98ea6e4f216f2fb4b69fff9b3a44842c38686ca685f3f55dc48c5d3fb1107be4"
        "hi\n").sha256 := by
  refine ⟨by decide, ?_⟩
  exact roundtrip_for_newline_terminated ⟨["a"], 5, 100, true, false⟩
    ⟨none, none, none⟩ fsA [] "t" (by decide)
    (FileEntry.mk ("/a")
      "98ea6e4f216f2fb4b69fff9b3a44842c38686ca685f3f55dc48c5d3fb1107be4"
      "hi\n")
    (by decide) (by decide)

/-- C5: the code's path resolution (`resolveOne`) and display-path rule
(`displayOf`) coincide, for all inputs, with `specResolve` and
`specDisplay`, the rules transcribed from the spec's words: relative paths
resolve against the repo root when one is known (else the working
directory), and the display path is relative to the root exactly when the
resolved absolute path lies under it, else the resolved path as-is. -/
theorem resolution_matches_spec :
    (∀ (repoRoot : Option String) (cwd : List String) (raw : String),
      resolveOne repoRoot cwd raw = specResolve repoRoot cwd raw) ∧
    (∀ (repoRoot : Option String) (cwd : List String) (p : PPath),
      displayOf repoRoot cwd p = specDisplay repoRoot cwd p) := by
  constructor
  · intro root cwd raw
    unfold resolveOne specResolve
    by_cases h : (parsePath raw).absolute <;> simp [h]
  · intro root cwd p
    unfold displayOf specDisplay relTo
    by_cases ht : pyTruthy root
    · by_cases habs : (resolveAbs cwd (parsePath (root.getD ("")))).absolute =
          (resolveAbs cwd p).absolute
      · by_cases hpre : ((resolveAbs cwd (parsePath (root.getD ("")))).components.isPrefixOf
            (resolveAbs cwd p).components) = true
        · rw [if_pos ht, if_pos ⟨habs, hpre⟩, if_pos (by simp [ht, habs, hpre])]
        · rw [if_pos ht, if_neg (fun h => hpre h.2), if_neg (by simp [hpre])]
      · rw [if_pos ht, if_neg (fun h => habs h.1),
          if_neg (by simp [beq_iff_eq, habs])]
    · simp [ht]

theorem flatten_cons2_fenced (X : List String) :
    flatten ("```text" :: "BEGIN_CONTEXT_PACK" :: X) =
      "```text\nBEGIN_CONTEXT_PACK\n" ++ flatten X := by
  rw [flatten_cons, flatten_cons, ← String.append_assoc]
  congr 1

theorem flatten_cons_plain (X : List String) :
    flatten ("BEGIN_CONTEXT_PACK" :: X) =
      "BEGIN_CONTEXT_PACK\n" ++ flatten X := by
  rw [flatten_cons]
  congr 1

theorem flatten_suffix_fenced (Y : List String) :
    flatten (Y ++ ["END_CONTEXT_PACK", "```"]) =
      flatten Y ++ "END_CONTEXT_PACK\n```\n" := by
  rw [flatten_append]
  congr 1

theorem flatten_suffix_plain (Y : List String) :
    flatten (Y ++ ["END_CONTEXT_PACK"]) = flatten Y ++ "END_CONTEXT_PACK\n" := by
  rw [flatten_append]
  congr 1

theorem packChunks_true_shape (r n b c : Option String) (now : String)
    (es : List FileEntry) :
    packChunks true r n b c now es =
      "```text" :: "BEGIN_CONTEXT_PACK" ::
        (("generated_utc: " ++ now) ::
          (optLine ("repo_root: ") r ++ (optLine ("repo_name: ") n ++
            (optLine ("git_branch: ") b ++ (optLine ("git_commit: ") c ++
              (("file_count: " ++ toString es.length) :: "" ::
                (es.flatMap entryChunks ++
                  "END_CONTEXT_PACK" :: ["```"]))))))) := by
  simp [packChunks, List.append_assoc]

theorem packChunks_true_split (r n b c : Option String) (now : String)
    (es : List FileEntry) :
    packChunks true r n b c now es =
      ("```text" :: "BEGIN_CONTEXT_PACK" :: ("generated_utc: " ++ now) ::
        (optLine ("repo_root: ") r ++ optLine ("repo_name: ") n ++
          optLine ("git_branch: ") b ++ optLine ("git_commit: ") c ++
          ("file_count: " ++ toString es.length) :: "" ::
          es.flatMap entryChunks)) ++ ["END_CONTEXT_PACK", "```"] := by
  simp [packChunks, List.append_assoc]

theorem packChunks_false_shape (r n b c : Option String) (now : String)
    (es : List FileEntry) :
    packChunks false r n b c now es =
      "BEGIN_CONTEXT_PACK" ::
        (("generated_utc: " ++ now) ::
          (optLine ("repo_root: ") r ++ (optLine ("repo_name: ") n ++
            (optLine ("git_branch: ") b ++ (optLine ("git_commit: ") c ++
              (("file_count: " ++ toString es.length) :: "" ::
                (es.flatMap entryChunks ++ ["END_CONTEXT_PACK"]))))))) := by
  simp [packChunks, List.append_assoc]

theorem packChunks_false_split (r n b c : Option String) (now : String)
    (es : List FileEntry) :
    packChunks false r n b c now es =
      ("BEGIN_CONTEXT_PACK" :: ("generated_utc: " ++ now) ::
        (optLine ("repo_root: ") r ++ optLine ("repo_name: ") n ++
          optLine ("git_branch: ") b ++ optLine ("git_commit: ") c ++
          ("file_count: " ++ toString es.length) :: "" ::
          es.flatMap entryChunks)) ++ ["END_CONTEXT_PACK"] := by
  simp [packChunks, List.append_assoc]

/-- C6: on every successful run, standard output begins with the
`BEGIN_CONTEXT_PACK` line and ends with the `END_CONTEXT_PACK` line; with
`--fence` those are preceded by a ```` ```text ```` line and followed by a
```` ``` ```` line. -/
theorem pack_envelope (cfg : Config) (git : GitEnv) (fs : FS)
    (cwd : List String) (now : String)
    (h0 : (ContextPack.main cfg git fs cwd now).exitCode = 0) :
    (cfg.fence = true →
      (∃ rest, (ContextPack.main cfg git fs cwd now).stdout =
        "```text\nBEGIN_CONTEXT_PACK\n" ++ rest) ∧
      (∃ pre, (ContextPack.main cfg git fs cwd now).stdout =
        pre ++ "END_CONTEXT_PACK\n```\n")) ∧
    (cfg.fence = false →
      (∃ rest, (ContextPack.main cfg git fs cwd now).stdout =
        "BEGIN_CONTEXT_PACK\n" ++ rest) ∧
      (∃ pre, (ContextPack.main cfg git fs cwd now).stdout =
        pre ++ "END_CONTEXT_PACK\n")) := by
  obtain ⟨hlen, hent, hreads, hsome, hbud, hstd, hstderr⟩ :=
    main_success_char cfg git fs cwd now h0
  constructor
  · intro hf
    rw [hf] at hstd
    constructor
    · rw [hstd, packChunks_true_shape, flatten_cons2_fenced]
      exact ⟨_, rfl⟩
    · rw [hstd, packChunks_true_split, flatten_suffix_fenced]
      exact ⟨_, rfl⟩
  · intro hf
    rw [hf] at hstd
    constructor
    · rw [hstd, packChunks_false_shape, flatten_cons_plain]
      exact ⟨_, rfl⟩
    · rw [hstd, packChunks_false_split, flatten_suffix_plain]
      exact ⟨_, rfl⟩

/-- Witness for C6 at a concrete fenced run over `/a`. -/
theorem pack_envelope_witness :
    (ContextPack.main ⟨["a"], 5, 100, true, true⟩ ⟨none, none, none⟩
        fsA [] "t").exitCode = 0 ∧
    ((∃ rest, (ContextPack.main ⟨["a"], 5, 100, true, true⟩ ⟨none, none, none⟩
        fsA [] "t").stdout = "```text\nBEGIN_CONTEXT_PACK\n" ++ rest) ∧
      (∃ pre, (ContextPack.main ⟨["a"], 5, 100, true, true⟩ ⟨none, none, none⟩
        fsA [] "t").stdout = pre ++ "END_CONTEXT_PACK\n```\n")) := by
  refine ⟨by decide, ?_⟩
  exact (pack_envelope ⟨["a"], 5, 100, true, true⟩ ⟨none, none, none⟩
    fsA [] "t" (by decide)).1 rfl

theorem packChunks_none_shape (f : Bool) (now : String) (es : List FileEntry) :
    packChunks f none none none none now es =
      (if f then ["```text"] else []) ++
        ["BEGIN_CONTEXT_PACK", "generated_utc: " ++ now,
         "file_count: " ++ toString es.length, ""] ++
        es.flatMap entryChunks ++ ["END_CONTEXT_PACK"] ++
        (if f then ["```"] else []) := by
  simp [packChunks, optLine]

theorem main_branch_commit_irrelevant (cfg : Config) (r b c b' c' : Option String)
    (fs : FS) (cwd : List String) (now : String) :
    (ContextPack.main cfg ⟨r, b, c⟩ fs cwd now).exitCode =
      (ContextPack.main cfg ⟨r, b', c'⟩ fs cwd now).exitCode ∧
    (ContextPack.main cfg ⟨r, b, c⟩ fs cwd now).stderr =
      (ContextPack.main cfg ⟨r, b', c'⟩ fs cwd now).stderr ∧
    (ContextPack.main cfg ⟨r, b, c⟩ fs cwd now).reads =
      (ContextPack.main cfg ⟨r, b', c'⟩ fs cwd now).reads ∧
    (ContextPack.main cfg ⟨r, b, c⟩ fs cwd now).entries =
      (ContextPack.main cfg ⟨r, b', c'⟩ fs cwd now).entries ∧
    (ContextPack.main cfg ⟨r, b, c⟩ fs cwd now).gitCalls =
      (ContextPack.main cfg ⟨r, b', c'⟩ fs cwd now).gitCalls := by
  by_cases hlen : (cfg.files.length : Int) > cfg.maxFiles
  · rw [main_tooMany cfg ⟨r, b, c⟩ fs cwd now hlen,
      main_tooMany cfg ⟨r, b', c'⟩ fs cwd now hlen]
    exact ⟨rfl, rfl, rfl, rfl, rfl⟩
  · rcases hload : loadFiles fs (probedRoot cfg ⟨r, b, c⟩) cwd cfg.maxBytes
      cfg.files 0 with ⟨o, rds⟩
    have hload' : loadFiles fs (probedRoot cfg ⟨r, b', c'⟩) cwd cfg.maxBytes
        cfg.files 0 = ⟨o, rds⟩ := hload
    cases o with
    | notAFile raw =>
      rw [main_of_notFound cfg ⟨r, b, c⟩ fs cwd now raw rds hlen hload,
        main_of_notFound cfg ⟨r, b', c'⟩ fs cwd now raw rds hlen hload']
      exact ⟨rfl, rfl, rfl, rfl, rfl⟩
    | tooLarge =>
      rw [main_of_tooLarge cfg ⟨r, b, c⟩ fs cwd now rds hlen hload,
        main_of_tooLarge cfg ⟨r, b', c'⟩ fs cwd now rds hlen hload']
      exact ⟨rfl, rfl, rfl, rfl, rfl⟩
    | ok es =>
      rw [main_of_ok cfg ⟨r, b, c⟩ fs cwd now es rds hlen hload,
        main_of_ok cfg ⟨r, b', c'⟩ fs cwd now es rds hlen hload']
      exact ⟨rfl, rfl, rfl, rfl, rfl⟩

theorem main_root_failure_downgrades (cfg : Config) (git : GitEnv) (fs : FS)
    (cwd : List String) (now : String) (h : git.showToplevel = none) :
    (ContextPack.main cfg git fs cwd now).exitCode =
      (ContextPack.main {cfg with noGit := true} ⟨none, none, none⟩ fs cwd now).exitCode ∧
    (ContextPack.main cfg git fs cwd now).stdout =
      (ContextPack.main {cfg with noGit := true} ⟨none, none, none⟩ fs cwd now).stdout ∧
    (ContextPack.main cfg git fs cwd now).stderr =
      (ContextPack.main {cfg with noGit := true} ⟨none, none, none⟩ fs cwd now).stderr ∧
    (ContextPack.main cfg git fs cwd now).reads =
      (ContextPack.main {cfg with noGit := true} ⟨none, none, none⟩ fs cwd now).reads ∧
    (ContextPack.main cfg git fs cwd now).entries =
      (ContextPack.main {cfg with noGit := true} ⟨none, none, none⟩ fs cwd now).entries := by
  have hpr : probedRoot cfg git = none := by
    simp [probedRoot, h]
  have hpr' : probedRoot {cfg with noGit := true} ⟨none, none, none⟩ = none := by
    simp [probedRoot]
  by_cases hlen : (cfg.files.length : Int) > cfg.maxFiles
  · rw [main_tooMany cfg git fs cwd now hlen,
      main_tooMany {cfg with noGit := true} ⟨none, none, none⟩ fs cwd now hlen]
    exact ⟨rfl, rfl, rfl, rfl, rfl⟩
  · rcases hload : loadFiles fs (probedRoot cfg git) cwd cfg.maxBytes
      cfg.files 0 with ⟨o, rds⟩
    have hload' : loadFiles fs (probedRoot {cfg with noGit := true}
        ⟨none, none, none⟩) cwd cfg.maxBytes cfg.files 0 = ⟨o, rds⟩ := by
      rw [hpr']
      rw [hpr] at hload
      exact hload
    cases o with
    | notAFile raw =>
      rw [main_of_notFound cfg git fs cwd now raw rds hlen hload,
        main_of_notFound {cfg with noGit := true} ⟨none, none, none⟩ fs cwd now
          raw rds hlen hload']
      exact ⟨rfl, rfl, rfl, rfl, rfl⟩
    | tooLarge =>
      rw [main_of_tooLarge cfg git fs cwd now rds hlen hload,
        main_of_tooLarge {cfg with noGit := true} ⟨none, none, none⟩ fs cwd now
          rds hlen hload']
      exact ⟨rfl, rfl, rfl, rfl, rfl⟩
    | ok es =>
      rw [main_of_ok cfg git fs cwd now es rds hlen hload,
        main_of_ok {cfg with noGit := true} ⟨none, none, none⟩ fs cwd now
          es rds hlen hload']
      refine ⟨rfl, ?_, rfl, rfl, rfl⟩
      have hn : probedName cfg git = none := by
        simp [probedName, hpr, pyTruthy]
      have hb : probedBranch cfg git = none := by
        simp [probedBranch, hpr, pyTruthy]
      have hc : probedCommit cfg git = none := by
        simp [probedCommit, hpr, pyTruthy]
      have hn' : probedName {cfg with noGit := true} ⟨none, none, none⟩ = none := by
        simp [probedName, hpr', pyTruthy]
      have hb' : probedBranch {cfg with noGit := true} ⟨none, none, none⟩ = none := by
        simp [probedBranch, hpr', pyTruthy]
      have hc' : probedCommit {cfg with noGit := true} ⟨none, none, none⟩ = none := by
        simp [probedCommit, hpr', pyTruthy]
      rw [hpr, hn, hb, hc, hpr', hn', hb', hc']

theorem main_gitCalls_char (cfg : Config) (git : GitEnv) (fs : FS)
    (cwd : List String) (now : String)
    (hlen : ¬((cfg.files.length : Int) > cfg.maxFiles)) :
    (ContextPack.main cfg git fs cwd now).gitCalls = gitCallsOf cfg git := by
  rcases hload : loadFiles fs (probedRoot cfg git) cwd cfg.maxBytes
    cfg.files 0 with ⟨o, rds⟩
  cases o with
  | notAFile raw =>
    rw [main_of_notFound cfg git fs cwd now raw rds hlen hload]
  | tooLarge =>
    rw [main_of_tooLarge cfg git fs cwd now rds hlen hload]
  | ok es =>
    rw [main_of_ok cfg git fs cwd now es rds hlen hload]

/-- C9: the metadata probe is best-effort and properly gated.  (i) The
branch and commit sub-query results never influence exit code, stderr,
read trace, entries, or git-call trace — a failure there at most removes a
header line.  (ii) A failed root discovery makes the run observationally
identical (exit, stdout, stderr, reads, entries) to a run with the probe
disabled: no error, no abort, absent metadata.  (iii) Once past the
max-files check the git invocations are exactly `gitCallsOf`: nothing under
`--no-git`, and branch/commit are queried only when root discovery
succeeded with a truthy result.  (iv) With `--no-git` the emitted header is
exactly sentinel, timestamp, file count — no `repo_root`, `repo_name`,
`git_branch`, or `git_commit` line exists in the print sequence. -/
theorem git_probe_best_effort :
    (∀ (cfg : Config) (r b c b' c' : Option String) (fs : FS)
        (cwd : List String) (now : String),
      (ContextPack.main cfg ⟨r, b, c⟩ fs cwd now).exitCode =
        (ContextPack.main cfg ⟨r, b', c'⟩ fs cwd now).exitCode ∧
      (ContextPack.main cfg ⟨r, b, c⟩ fs cwd now).stderr =
        (ContextPack.main cfg ⟨r, b', c'⟩ fs cwd now).stderr ∧
      (ContextPack.main cfg ⟨r, b, c⟩ fs cwd now).reads =
        (ContextPack.main cfg ⟨r, b', c'⟩ fs cwd now).reads ∧
      (ContextPack.main cfg ⟨r, b, c⟩ fs cwd now).entries =
        (ContextPack.main cfg ⟨r, b', c'⟩ fs cwd now).entries ∧
      (ContextPack.main cfg ⟨r, b, c⟩ fs cwd now).gitCalls =
        (ContextPack.main cfg ⟨r, b', c'⟩ fs cwd now).gitCalls) ∧
    (∀ (cfg : Config) (git : GitEnv) (fs : FS) (cwd : List String)
        (now : String), git.showToplevel = none →
      (ContextPack.main cfg git fs cwd now).exitCode =
        (ContextPack.main {cfg with noGit := true} ⟨none, none, none⟩
          fs cwd now).exitCode ∧
      (ContextPack.main cfg git fs cwd now).stdout =
        (ContextPack.main {cfg with noGit := true} ⟨none, none, none⟩
          fs cwd now).stdout ∧
      (ContextPack.main cfg git fs cwd now).stderr =
        (ContextPack.main {cfg with noGit := true} ⟨none, none, none⟩
          fs cwd now).stderr) ∧
    (∀ (cfg : Config) (git : GitEnv) (fs : FS) (cwd : List String)
        (now : String), ¬((cfg.files.length : Int) > cfg.maxFiles) →
      (ContextPack.main cfg git fs cwd now).gitCalls = gitCallsOf cfg git) ∧
    (∀ (cfg : Config) (git : GitEnv), cfg.noGit = false →
      pyTruthy git.showToplevel = false →
      gitCallsOf cfg git = [["rev-parse", "--show-toplevel"]]) ∧
    (∀ (cfg : Config) (git : GitEnv), cfg.noGit = true →
      gitCallsOf cfg git = []) ∧
    (∀ (cfg : Config) (git : GitEnv) (fs : FS) (cwd : List String)
        (now : String), cfg.noGit = true →
      (ContextPack.main cfg git fs cwd now).exitCode = 0 →
      (ContextPack.main cfg git fs cwd now).stdout =
        flatten ((if cfg.fence then ["```text"] else []) ++
          ["BEGIN_CONTEXT_PACK", "generated_utc: " ++ now,
           "file_count: " ++
             toString (ContextPack.main cfg git fs cwd now).entries.length, ""] ++
          (ContextPack.main cfg git fs cwd now).entries.flatMap entryChunks ++
          ["END_CONTEXT_PACK"] ++
          (if cfg.fence then ["```"] else []))) := by
  refine ⟨?_, ?_, ?_, ?_, ?_, ?_⟩
  · intro cfg r b c b' c' fs cwd now
    exact main_branch_commit_irrelevant cfg r b c b' c' fs cwd now
  · intro cfg git fs cwd now h
    obtain ⟨h1, h2, h3, _, _⟩ := main_root_failure_downgrades cfg git fs cwd now h
    exact ⟨h1, h2, h3⟩
  · intro cfg git fs cwd now hlen
    exact main_gitCalls_char cfg git fs cwd now hlen
  · intro cfg git hng ht
    simp [gitCallsOf, hng, ht]
  · intro cfg git hng
    simp [gitCallsOf, hng]
  · intro cfg git fs cwd now hng h0
    obtain ⟨hlen, hent, hreads, hsome, hbud, hstd, hstderr⟩ :=
      main_success_char cfg git fs cwd now h0
    have hpr : probedRoot cfg git = none := by
      simp [probedRoot, hng]
    have hn : probedName cfg git = none := by
      simp [probedName, hpr, pyTruthy]
    have hb : probedBranch cfg git = none := by
      simp [probedBranch, hpr, pyTruthy]
    have hc : probedCommit cfg git = none := by
      simp [probedCommit, hpr, pyTruthy]
    rw [hstd, hpr, hn, hb, hc, packChunks_none_shape]

/-- Witness for C9 at concrete runs: root discovery failed, so the run
equals the `--no-git` run on its observable failure-relevant components,
and only the root query was issued. -/
theorem git_probe_best_effort_witness :
    ((ContextPack.main ⟨["a"], 5, 100, false, false⟩
        ⟨none, some ("x"), some ("y")⟩ fsA [] "t").exitCode =
      (ContextPack.main ⟨["a"], 5, 100, true, false⟩ ⟨none, none, none⟩
        fsA [] "t").exitCode ∧
     (ContextPack.main ⟨["a"], 5, 100, false, false⟩
        ⟨none, some ("x"), some ("y")⟩ fsA [] "t").stdout =
      (ContextPack.main ⟨["a"], 5, 100, true, false⟩ ⟨none, none, none⟩
        fsA [] "t").stdout ∧
     (ContextPack.main ⟨["a"], 5, 100, false, false⟩
        ⟨none, some ("x"), some ("y")⟩ fsA [] "t").stderr =
      (ContextPack.main ⟨["a"], 5, 100, true, false⟩ ⟨none, none, none⟩
        fsA [] "t").stderr) ∧
    gitCallsOf ⟨["a"], 5, 100, false, false⟩ ⟨none, some ("x"), some ("y")⟩ =
      [["rev-parse", "--show-toplevel"]] := by
  refine ⟨?_, ?_⟩
  · exact git_probe_best_effort.2.1 ⟨["a"], 5, 100, false, false⟩
      ⟨none, some ("x"), some ("y")⟩ fsA [] "t" rfl
  · exact git_probe_best_effort.2.2.2.1 ⟨["a"], 5, 100, false, false⟩
      ⟨none, some ("x"), some ("y")⟩ rfl (by decide)

theorem resolveOne_empty_root (cwd : List String) (raw : String) :
    resolveOne (some ("")) cwd raw = resolveOne none cwd raw := by
  simp [resolveOne, pyTruthy]

theorem displayOf_empty_root (cwd : List String) (p : PPath) :
    displayOf (some ("")) cwd p = displayOf none cwd p := by
  simp [displayOf, pyTruthy]

theorem loadFiles_root_congr (fs : FS) (cwd : List String) (mb : Int)
    (r1 r2 : Option String)
    (h1 : ∀ raw, resolveOne r1 cwd raw = resolveOne r2 cwd raw)
    (h2 : ∀ p, displayOf r1 cwd p = displayOf r2 cwd p) :
    ∀ (raws : List String) (total : Nat),
      loadFiles fs r1 cwd mb raws total = loadFiles fs r2 cwd mb raws total := by
  intro raws
  induction raws with
  | nil => intro total; rfl
  | cons raw rest ih =>
    intro total
    have hrr := h1 raw
    cases hfs : fs (resolveOne r1 cwd raw) with
    | none =>
      rw [loadFiles_cons_missing fs r1 cwd mb raw rest total hfs,
        loadFiles_cons_missing fs r2 cwd mb raw rest total
          (by rw [← hrr]; exact hfs)]
    | some c =>
      rw [loadFiles_cons_found fs r1 cwd mb raw rest total c hfs,
        loadFiles_cons_found fs r2 cwd mb raw rest total c
          (by rw [← hrr]; exact hfs)]
      by_cases hbig : ((total + utf8Len c : Nat) : Int) > mb
      · rw [if_pos hbig, if_pos hbig, hrr]
      · rw [if_neg hbig, if_neg hbig]
        simp only [ih, hrr, h2]

theorem packChunks_empty_root (f : Bool) (n b c : Option String)
    (now : String) (es : List FileEntry) :
    packChunks f (some ("")) n b c now es = packChunks f none n b c now es := by
  simp [packChunks, optLine]

theorem main_empty_root_eq (cfg : Config) (b c b' c' : Option String)
    (fs : FS) (cwd : List String) (now : String) :
    ContextPack.main cfg ⟨some (""), b, c⟩ fs cwd now =
      ContextPack.main cfg ⟨none, b', c'⟩ fs cwd now := by
  by_cases hlen : (cfg.files.length : Int) > cfg.maxFiles
  · rw [main_tooMany cfg ⟨some (""), b, c⟩ fs cwd now hlen,
      main_tooMany cfg ⟨none, b', c'⟩ fs cwd now hlen]
  · have hgc : gitCallsOf cfg ⟨some (""), b, c⟩ = gitCallsOf cfg ⟨none, b', c'⟩ := by
      simp [gitCallsOf, pyTruthy]
    have hn : probedName cfg ⟨some (""), b, c⟩ = none := by
      cases hng : cfg.noGit <;> simp [probedName, probedRoot, pyTruthy, hng]
    have hn' : probedName cfg ⟨none, b', c'⟩ = none := by
      cases hng : cfg.noGit <;> simp [probedName, probedRoot, pyTruthy, hng]
    have hb : probedBranch cfg ⟨some (""), b, c⟩ = none := by
      cases hng : cfg.noGit <;> simp [probedBranch, probedRoot, pyTruthy, hng]
    have hb' : probedBranch cfg ⟨none, b', c'⟩ = none := by
      cases hng : cfg.noGit <;> simp [probedBranch, probedRoot, pyTruthy, hng]
    have hcm : probedCommit cfg ⟨some (""), b, c⟩ = none := by
      cases hng : cfg.noGit <;> simp [probedCommit, probedRoot, pyTruthy, hng]
    have hcm' : probedCommit cfg ⟨none, b', c'⟩ = none := by
      cases hng : cfg.noGit <;> simp [probedCommit, probedRoot, pyTruthy, hng]
    cases hng : cfg.noGit with
    | true =>
      have hpr : probedRoot cfg ⟨some (""), b, c⟩ = none := by
        simp [probedRoot, hng]
      have hpr' : probedRoot cfg ⟨none, b', c'⟩ = none := by
        simp [probedRoot, hng]
      rcases hload : loadFiles fs (probedRoot cfg ⟨some (""), b, c⟩) cwd
        cfg.maxBytes cfg.files 0 with ⟨o, rds⟩
      have hload' : loadFiles fs (probedRoot cfg ⟨none, b', c'⟩) cwd
          cfg.maxBytes cfg.files 0 = ⟨o, rds⟩ := by
        rw [hpr']
        rw [hpr] at hload
        exact hload
      cases o with
      | notAFile raw =>
        rw [main_of_notFound cfg ⟨some (""), b, c⟩ fs cwd now raw rds hlen hload,
          main_of_notFound cfg ⟨none, b', c'⟩ fs cwd now raw rds hlen hload', hgc]
      | tooLarge =>
        rw [main_of_tooLarge cfg ⟨some (""), b, c⟩ fs cwd now rds hlen hload,
          main_of_tooLarge cfg ⟨none, b', c'⟩ fs cwd now rds hlen hload', hgc]
      | ok es =>
        rw [main_of_ok cfg ⟨some (""), b, c⟩ fs cwd now es rds hlen hload,
          main_of_ok cfg ⟨none, b', c'⟩ fs cwd now es rds hlen hload',
          hgc, hn, hn', hb, hb', hcm, hcm', hpr, hpr']
    | false =>
      have hpr : probedRoot cfg ⟨some (""), b, c⟩ = some ("") := by
        simp [probedRoot, hng]
      have hpr' : probedRoot cfg ⟨none, b', c'⟩ = none := by
        simp [probedRoot, hng]
      rcases hload : loadFiles fs (probedRoot cfg ⟨some (""), b, c⟩) cwd
        cfg.maxBytes cfg.files 0 with ⟨o, rds⟩
      have hload' : loadFiles fs (probedRoot cfg ⟨none, b', c'⟩) cwd
          cfg.maxBytes cfg.files 0 = ⟨o, rds⟩ := by
        rw [hpr']
        rw [hpr] at hload
        rw [← loadFiles_root_congr fs cwd cfg.maxBytes (some ("")) none
          (resolveOne_empty_root cwd) (displayOf_empty_root cwd) cfg.files 0]
        exact hload
      cases o with
      | notAFile raw =>
        rw [main_of_notFound cfg ⟨some (""), b, c⟩ fs cwd now raw rds hlen hload,
          main_of_notFound cfg ⟨none, b', c'⟩ fs cwd now raw rds hlen hload', hgc]
      | tooLarge =>
        rw [main_of_tooLarge cfg ⟨some (""), b, c⟩ fs cwd now rds hlen hload,
          main_of_tooLarge cfg ⟨none, b', c'⟩ fs cwd now rds hlen hload', hgc]
      | ok es =>
        rw [main_of_ok cfg ⟨some (""), b, c⟩ fs cwd now es rds hlen hload,
          main_of_ok cfg ⟨none, b', c'⟩ fs cwd now es rds hlen hload',
          hgc, hn, hn', hb, hb', hcm, hcm', hpr, hpr', packChunks_empty_root]

/-- C10: a root probe that returns an empty string is falsy, so the program
behaves exactly as if no repository was found: the entire run result
(including the header lines, read trace and entries) coincides with a run
whose root discovery failed; branch and commit are never queried (the git
trace holds only the root query when probing is enabled); and relative
arguments resolve against the current working directory. -/
theorem empty_root_behaves_as_no_repo :
    (∀ (cfg : Config) (b c b' c' : Option String) (fs : FS)
        (cwd : List String) (now : String),
      ContextPack.main cfg ⟨some (""), b, c⟩ fs cwd now =
        ContextPack.main cfg ⟨none, b', c'⟩ fs cwd now) ∧
    (∀ (cfg : Config) (b c : Option String), cfg.noGit = false →
      gitCallsOf cfg ⟨some (""), b, c⟩ = [["rev-parse", "--show-toplevel"]]) ∧
    (∀ (cfg : Config) (b c : Option String) (cwd : List String) (raw : String),
      (parsePath raw).absolute = false →
      resolveOne (probedRoot cfg ⟨some (""), b, c⟩) cwd raw =
        pathJoin ⟨true, cwd⟩ (parsePath raw)) := by
  refine ⟨?_, ?_, ?_⟩
  · intro cfg b c b' c' fs cwd now
    exact main_empty_root_eq cfg b c b' c' fs cwd now
  · intro cfg b c hng
    simp [gitCallsOf, hng, pyTruthy]
  · intro cfg b c cwd raw habs
    cases hng : cfg.noGit <;>
      simp [probedRoot, hng, resolveOne, pyTruthy, habs]

/-- Witness for C10 at a concrete input: with an empty-string root the run
over a relative argument equals the failed-probe run, the git trace is just
the root query, and `"x"` resolves under the working directory. -/
theorem empty_root_behaves_as_no_repo_witness :
    ContextPack.main ⟨["x"], 5, 100, false, false⟩ ⟨some (""), some ("m"), some ("s")⟩
        (fun p => if p = ⟨true, ["cwd", "x"]⟩ then some ("z") else none)
        ["cwd"] "t" =
      ContextPack.main ⟨["x"], 5, 100, false, false⟩ ⟨none, none, none⟩
        (fun p => if p = ⟨true, ["cwd", "x"]⟩ then some ("z") else none)
        ["cwd"] "t" ∧
    gitCallsOf ⟨["x"], 5, 100, false, false⟩ ⟨some (""), some ("m"), some ("s")⟩ =
      [["rev-parse", "--show-toplevel"]] ∧
    resolveOne (probedRoot ⟨["x"], 5, 100, false, false⟩
        ⟨some (""), some ("m"), some ("s")⟩) ["cwd"] "x" =
      pathJoin ⟨true, ["cwd"]⟩ (parsePath ("x")) := by
  refine ⟨?_, ?_, ?_⟩
  · exact empty_root_behaves_as_no_repo.1 ⟨["x"], 5, 100, false, false⟩
      (some ("m")) (some ("s")) none none
      (fun p => if p = ⟨true, ["cwd", "x"]⟩ then some ("z") else none) ["cwd"] "t"
  · exact empty_root_behaves_as_no_repo.2.1 ⟨["x"], 5, 100, false, false⟩
      (some ("m")) (some ("s")) rfl
  · exact empty_root_behaves_as_no_repo.2.2 ⟨["x"], 5, 100, false, false⟩
      (some ("m")) (some ("s")) ["cwd"] "x" (by decide)
